import Mathlib

/-!
Shallow embedding of `effect/testing.py`: the test-oriented resolution
engine for deferred-computation values (`resolve_effect`, `fail_effect`,
`resolve_stub`) and the synchronous harness (`sync_perform`).

Modelling conventions:
* Python exceptions are modelled by `Exc` (type name + message), and a
  captured `sys.exc_info()` tuple by the payload constructor `Val.excInfo`.
* A continuation (Python callable) is an element of an abstract type `Cb`
  together with an application function `apply : Cb → Val Cb → CbRes Cb`
  which either returns a payload or raises an exception.  Concrete
  witnesses instantiate `Cb` with the small language `CbL` below.
* `type(result) is Effect` is an exact runtime-type test; `Val.eff` carries
  a Boolean `exact` recording whether the object's runtime type is exactly
  `Effect` (`true`) or a proper subclass (`false`).
* The embedding is pure: a `Val`/`EffectD` is never mutated; every outcome
  is a newly constructed value.
-/

/-- A Python exception, identified by its type name and message. -/
structure Exc where
  ty : String
  msg : String
deriving DecidableEq, Repr

/-- An intent.  Per the data model, the only concrete variant in this core
is `StubIntent` (holding a pre-specified `result`); every other intent is
opaque and has no `result` attribute. -/
inductive IntentV (V : Type) : Type where
  | stub : V → IntentV V
  | other : Nat → IntentV V
deriving Repr

/-- A Python value as seen by the engine: a plain value, a captured
`sys.exc_info()` tuple, or an `Effect` object (intent + callbacks, with a
flag telling whether its runtime type is exactly `Effect`). -/
inductive Val (Cb : Type) : Type where
  | base : Nat → Val Cb
  | excInfo : Exc → Val Cb
  | eff : Bool → IntentV (Val Cb) → List (Option Cb × Option Cb) → Val Cb

/-- A continuation pair `(callback, errback)`, either side possibly absent. -/
abbrev CbPair (Cb : Type) := Option Cb × Option Cb

/-- A deferred-computation value as passed to `resolve_effect`:
its `intent` and its ordered `callbacks`. -/
structure EffectD (Cb : Type) where
  intent : IntentV (Val Cb)
  callbacks : List (CbPair Cb)

/-- Result of invoking one continuation: normal return or a raised exception. -/
inductive CbRes (Cb : Type) where
  | ret : Val Cb → CbRes Cb
  | exn : Exc → CbRes Cb

/-- Outcome of one `resolve_effect` call: a returned value, a re-raised
exception, or a pending `Effect` (re-entrancy). -/
inductive Outcome (Cb : Type) where
  | value : Val Cb → Outcome Cb
  | raised : Exc → Outcome Cb
  | pending : Val Cb → Outcome Cb

/-- `cb = errback if is_error else callback` (testing.py line 62). -/
def select {Cb : Type} (isError : Bool) (p : CbPair Cb) : Option Cb :=
  if isError then p.2 else p.1

/-- The `try/except` around `result = cb(result)` (lines 65-70): on normal
return the new state is `(value, False)`; on a raise it is
`(sys.exc_info(), True)`. -/
def runCb {Cb : Type} (apply : Cb → Val Cb → CbRes Cb) (f : Cb) (r : Val Cb) :
    Val Cb × Bool :=
  match apply f r with
  | .ret v => (v, false)
  | .exn e => (.excInfo e, true)

/-- `six.reraise(*result)` (line 79): re-raises a captured exc_info tuple;
on any other argument the unpacking itself raises a `TypeError`. -/
def reraiseVal {Cb : Type} : Val Cb → Outcome Cb
  | .excInfo e => .raised e
  | _ => .raised ⟨"TypeError", "reraise applied to a non exc_info value"⟩

/-- The loop of `resolve_effect` (lines 61-80), as structural recursion over
the remaining callback pairs, with the current `result` and `is_error`. -/
def resolveList {Cb : Type} (apply : Cb → Val Cb → CbRes Cb) :
    List (CbPair Cb) → Val Cb → Bool → Outcome Cb
  | [], result, isError => if isError then reraiseVal result else .value result
  | p :: rest, result, isError =>
    match select isError p with
    | none => resolveList apply rest result isError
    | some f =>
      match runCb apply f result with
      | (Val.eff true intent cbs, _) => .pending (Val.eff true intent (cbs ++ rest))
      | (r, m) => resolveList apply rest r m

/-- `resolve_effect(effect, result, is_error=False)` (testing.py 27-80). -/
def resolve_effect {Cb : Type} (apply : Cb → Val Cb → CbRes Cb)
    (effect : EffectD Cb) (result : Val Cb) (isError : Bool) : Outcome Cb :=
  resolveList apply effect.callbacks result isError

/-- `fail_effect(effect, exception)` (testing.py 83-90): raise and capture
`exception`, then resolve with the captured exc_info in error mode. -/
def fail_effect {Cb : Type} (apply : Cb → Val Cb → CbRes Cb)
    (effect : EffectD Cb) (e : Exc) : Outcome Cb :=
  resolve_effect apply effect (.excInfo e) true

/-- The attribute access `intent.result`: succeeds on a `StubIntent`, raises
`AttributeError` on any other intent of this core. -/
def resultAttr {V : Type} : IntentV V → Except String V
  | .stub r => .ok r
  | .other _ => .error "AttributeError"

/-- `resolve_stub(effect)` (testing.py 93-98):
`resolve_effect(effect, effect.intent.result)`; the attribute access fails
on a non-stub intent before the engine runs. -/
def resolve_stub {Cb : Type} (apply : Cb → Val Cb → CbRes Cb)
    (effect : EffectD Cb) : Except String (Outcome Cb) :=
  match resultAttr effect.intent with
  | .ok r => .ok (resolve_effect apply effect r false)
  | .error s => .error s

/-- Outcome of `sync_perform`: a returned value, a re-raised error, or the
`AssertionError("... was not synchronous!")`. -/
inductive SyncOutcome (Cb : Type) where
  | value : Val Cb → SyncOutcome Cb
  | raised : Exc → SyncOutcome Cb
  | assertionError : SyncOutcome Cb

/-- `six.reraise(*errors[0])` in `sync_perform` (line 127). -/
def reraiseSync {Cb : Type} : Val Cb → SyncOutcome Cb
  | .excInfo e => .raised e
  | _ => .raised ⟨"TypeError", "reraise applied to a non exc_info value"⟩

/-- The unwrap step of `sync_perform` after `perform` returns
(testing.py 124-129): `if successes: return successes[0]
elif errors: six.reraise(*errors[0]) else: raise AssertionError(...)`. -/
def sync_unwrap {Cb : Type} :
    List (Val Cb) → List (Val Cb) → SyncOutcome Cb
  | s :: _, _ => .value s
  | [], e :: _ => reraiseSync e
  | [], [] => .assertionError

/-- Modelled from the spec: the external `perform` machinery (absent from
`src/`; spec sections 4.5 and 6).  Its net observable effect on the two
terminal collectors `SUCC`/`ERR` attached by `sync_perform` is a single
delivery: a success payload, a captured failure, or no delivery at all when
the performer deferred instead of completing inline. -/
inductive Delivery (Cb : Type) where
  | success : Val Cb → Delivery Cb
  | failure : Exc → Delivery Cb
  | deferred : Delivery Cb

/-- The collector lists `successes`/`errors` as left by `perform`
(modelled from the spec: each terminal continuation appends its argument
to its private list; the error collector receives the captured exc_info). -/
def collectors {Cb : Type} : Delivery Cb → List (Val Cb) × List (Val Cb)
  | .success v => ([v], [])
  | .failure e => ([], [.excInfo e])
  | .deferred => ([], [])

/-- `sync_perform(effect, dispatcher)` (testing.py 101-129), with the
external `perform` abstracted by the delivery it makes to the collectors. -/
def sync_perform {Cb : Type} (d : Delivery Cb) : SyncOutcome Cb :=
  sync_unwrap (collectors d).1 (collectors d).2

/-- A concrete little language of continuations, used to instantiate the
abstract callable type `Cb` at concrete witnesses. -/
inductive CbL : Type where
  | idc : CbL
  | constN : Nat → CbL
  | succN : CbL
  | raiseE : String → String → CbL
  | retEff : Bool → Nat → List (Option CbL × Option CbL) → CbL

/-- Interpreter for `CbL`. -/
def applyL : CbL → Val CbL → CbRes CbL
  | .idc, v => .ret v
  | .constN n, _ => .ret (.base n)
  | .succN, .base n => .ret (.base (n + 1))
  | .succN, _ => .ret (.base 0)
  | .raiseE t m, _ => .exn ⟨t, m⟩
  | .retEff exact tag cbs, _ => .ret (.eff exact (.other tag) cbs)

/-- State `(result, is_error)` of the loop on entry to the slot that follows
the given pairs, when the loop traverses all of them without an early
re-entrancy return (`none` if a continuation returned an exact `Effect`). -/
def runUpto {Cb : Type} (apply : Cb → Val Cb → CbRes Cb) :
    List (CbPair Cb) → Val Cb → Bool → Option (Val Cb × Bool)
  | [], r, m => some (r, m)
  | p :: rest, r, m =>
    match select m p with
    | none => runUpto apply rest r m
    | some f =>
      match runCb apply f r with
      | (Val.eff true _ _, _) => none
      | (r', m') => runUpto apply rest r' m'

theorem resolveList_append {Cb : Type} (apply : Cb → Val Cb → CbRes Cb)
    (pre : List (CbPair Cb)) :
    ∀ (rest : List (CbPair Cb)) (r : Val Cb) (m : Bool) (p' : Val Cb) (m' : Bool),
      runUpto apply pre r m = some (p', m') →
      resolveList apply (pre ++ rest) r m = resolveList apply rest p' m' := by
  induction pre with
  | nil =>
    intro rest r m p' m' h
    simp only [runUpto, Option.some.injEq, Prod.mk.injEq] at h
    rw [List.nil_append, h.1, h.2]
  | cons p pre ih =>
    intro rest r m p' m' h
    rw [List.cons_append]
    rw [runUpto] at h
    rw [resolveList]
    rcases hsel : select m p with _ | f
    · rw [hsel] at h
      simpa using ih rest r m p' m' h
    · rw [hsel] at h
      simp only at h ⊢
      rcases hrc : runCb apply f r with ⟨v, b⟩
      rw [hrc] at h
      rcases v with n | e | ⟨exact, intent, cbs⟩
      · exact ih rest _ _ p' m' h
      · exact ih rest _ _ p' m' h
      · cases exact
        · exact ih rest _ _ p' m' h
        · simp at h

theorem runUpto_append {Cb : Type} (apply : Cb → Val Cb → CbRes Cb)
    (pre : List (CbPair Cb)) :
    ∀ (rest : List (CbPair Cb)) (r : Val Cb) (m : Bool) (p' : Val Cb) (m' : Bool),
      runUpto apply pre r m = some (p', m') →
      runUpto apply (pre ++ rest) r m = runUpto apply rest p' m' := by
  induction pre with
  | nil =>
    intro rest r m p' m' h
    simp only [runUpto, Option.some.injEq, Prod.mk.injEq] at h
    rw [List.nil_append, h.1, h.2]
  | cons p pre ih =>
    intro rest r m p' m' h
    rw [List.cons_append]
    rw [runUpto] at h
    rw [runUpto]
    rcases hsel : select m p with _ | f
    · rw [hsel] at h
      simpa using ih rest r m p' m' h
    · rw [hsel] at h
      simp only at h ⊢
      rcases hrc : runCb apply f r with ⟨v, b⟩
      rw [hrc] at h
      rcases v with n | e | ⟨exact, intent, cbs⟩
      · exact ih rest _ _ p' m' h
      · exact ih rest _ _ p' m' h
      · cases exact
        · exact ih rest _ _ p' m' h
        · simp at h

/-- C3: for every effect with an empty callback sequence, resolving with a
success result returns it unchanged, and resolving in error mode with an
ErrorToken re-raises exactly that error instead of returning. -/
theorem resolve_effect_empty_callbacks {Cb : Type} (apply : Cb → Val Cb → CbRes Cb)
    (effect : EffectD Cb) (h : effect.callbacks = []) (r : Val Cb) (e : Exc) :
    resolve_effect apply effect r false = .value r ∧
    resolve_effect apply effect (.excInfo e) true = .raised e := by
  constructor <;> simp [resolve_effect, h, resolveList, reraiseVal]

/-- Witness for C3 at a concrete zero-callback effect. -/
theorem resolve_effect_empty_callbacks_witness :
    resolve_effect applyL ⟨.other 0, []⟩ (Val.base 42) false = .value (Val.base 42) ∧
    resolve_effect applyL ⟨.other 0, []⟩ (Val.excInfo ⟨"ValueError", "x"⟩) true
      = .raised ⟨"ValueError", "x"⟩ :=
  resolve_effect_empty_callbacks applyL ⟨.other 0, []⟩ rfl (Val.base 42)
    ⟨"ValueError", "x"⟩

/-- C4: a pair whose selected side is absent never changes the current mode
or payload: if the loop enters slot `i` (i.e. the slot after `pre`) in state
`(p, m)` and the side of `pair` selected by mode `m` is absent, the loop
enters slot `i + 1` in the same state `(p, m)`. -/
theorem absent_continuation_preserves_state {Cb : Type}
    (apply : Cb → Val Cb → CbRes Cb) (pre : List (CbPair Cb)) (pair : CbPair Cb)
    (r0 p : Val Cb) (m0 m : Bool)
    (hpre : runUpto apply pre r0 m0 = some (p, m))
    (hsel : select m pair = none) :
    runUpto apply (pre ++ [pair]) r0 m0 = some (p, m) := by
  rw [runUpto_append apply pre [pair] r0 m0 p m hpre]
  rw [runUpto, hsel]
  rfl

/-- Witness for C4: an error passes unchanged through a pair with an absent
error-continuation. -/
theorem absent_continuation_preserves_state_witness :
    runUpto applyL [((some CbL.succN : Option CbL), (none : Option CbL))]
      (Val.excInfo ⟨"E", "m"⟩) true = some (Val.excInfo ⟨"E", "m"⟩, true) :=
  absent_continuation_preserves_state applyL [] (some CbL.succN, none)
    (Val.excInfo ⟨"E", "m"⟩) (Val.excInfo ⟨"E", "m"⟩) true true rfl rfl

/-- C5: if no pair of the chain has an error-continuation, `fail_effect`
re-raises an exception of the same type and message as the injected one:
the error is neither swallowed nor replaced. -/
theorem fail_effect_no_errbacks {Cb : Type} (apply : Cb → Val Cb → CbRes Cb)
    (effect : EffectD Cb) (e : Exc)
    (h : ∀ p ∈ effect.callbacks, p.2 = none) :
    fail_effect apply effect e = .raised e := by
  obtain ⟨intent, cbs⟩ := effect
  simp only [fail_effect, resolve_effect] at *
  induction cbs with
  | nil => rfl
  | cons p rest ih =>
    rw [resolveList]
    have hp : p.2 = none := h p (List.mem_cons_self p rest)
    have hsel : select true p = none := by rw [select]; simpa using hp
    rw [hsel]
    exact ih fun q hq => h q (List.mem_cons_of_mem p hq)

/-- Witness for C5: `fail_effect` with `ValueError("x")` through a chain
with success-continuations only re-raises `ValueError("x")`. -/
theorem fail_effect_no_errbacks_witness :
    fail_effect applyL
      ⟨.other 0, [(some CbL.succN, none), (none, none), (some CbL.idc, none)]⟩
      ⟨"ValueError", "x"⟩ = .raised ⟨"ValueError", "x"⟩ :=
  fail_effect_no_errbacks applyL
    ⟨.other 0, [(some CbL.succN, none), (none, none), (some CbL.idc, none)]⟩
    ⟨"ValueError", "x"⟩ (by intro p hp; fin_cases hp <;> rfl)

/-- C1: if the loop enters slot `i` (the slot after `pre`, `pre.length = i`)
in state `(p, m)` and the continuation selected there returns a value whose
runtime type is exactly `Effect`, resolution stops immediately and returns a
pending effect whose intent is the returned value's intent and whose
callbacks are the returned value's callbacks followed by
`effect.callbacks[i+1:]`, in that order. -/
theorem resolve_effect_reentrancy {Cb : Type} (apply : Cb → Val Cb → CbRes Cb)
    (effect : EffectD Cb) (r0 : Val Cb) (m0 : Bool) (i : Nat)
    (pre : List (CbPair Cb)) (pair : CbPair Cb) (post : List (CbPair Cb))
    (hsplit : effect.callbacks = pre ++ pair :: post) (hlen : pre.length = i)
    (p : Val Cb) (m : Bool) (hpre : runUpto apply pre r0 m0 = some (p, m))
    (f : Cb) (hsel : select m pair = some f)
    (intent : IntentV (Val Cb)) (cbs : List (CbPair Cb))
    (happ : apply f p = .ret (.eff true intent cbs)) :
    resolve_effect apply effect r0 m0 =
      .pending (.eff true intent (cbs ++ effect.callbacks.drop (i + 1))) := by
  subst hlen
  have hdrop : (pre ++ pair :: post).drop (pre.length + 1) = post := by
    have h1 : pre ++ pair :: post = (pre ++ [pair]) ++ post := by simp
    have h2 : pre.length + 1 = (pre ++ [pair]).length := by simp
    rw [h1, h2, List.drop_left]
  rw [resolve_effect, hsplit, hdrop]
  rw [resolveList_append apply pre (pair :: post) r0 m0 p m hpre]
  rw [resolveList, hsel]
  simp only [runCb, happ]

/-- Witness for C1: a continuation returning an effect with callbacks
`[c1, c2]` while `[c3, c4]` remained yields callbacks `[c1, c2, c3, c4]`. -/
theorem resolve_effect_reentrancy_witness :
    resolve_effect applyL
      ⟨.other 0,
       [(some (CbL.retEff true 7 [(some CbL.idc, none), (some (CbL.constN 1), none)]),
         none),
        (some CbL.succN, none), (none, some CbL.idc)]⟩
      (Val.base 0) false =
      .pending (.eff true (.other 7)
        [(some CbL.idc, none), (some (CbL.constN 1), none),
         (some CbL.succN, none), (none, some CbL.idc)]) :=
  resolve_effect_reentrancy applyL
    ⟨.other 0,
     [(some (CbL.retEff true 7 [(some CbL.idc, none), (some (CbL.constN 1), none)]),
       none),
      (some CbL.succN, none), (none, some CbL.idc)]⟩
    (Val.base 0) false 0 []
    (some (CbL.retEff true 7 [(some CbL.idc, none), (some (CbL.constN 1), none)]),
      none)
    [(some CbL.succN, none), (none, some CbL.idc)]
    rfl rfl (Val.base 0) false rfl _ rfl (.other 7)
    [(some CbL.idc, none), (some (CbL.constN 1), none)] rfl

/-- C10: the re-entrancy test is an exact type test.  If the continuation
selected at slot `i` returns an instance of a proper subclass of `Effect`,
the engine treats it as a plain success payload and simply continues the
chain with it (returning it if nothing remains). -/
theorem resolve_effect_subclass_passthrough {Cb : Type}
    (apply : Cb → Val Cb → CbRes Cb)
    (effect : EffectD Cb) (r0 : Val Cb) (m0 : Bool)
    (pre : List (CbPair Cb)) (pair : CbPair Cb) (post : List (CbPair Cb))
    (hsplit : effect.callbacks = pre ++ pair :: post)
    (p : Val Cb) (m : Bool) (hpre : runUpto apply pre r0 m0 = some (p, m))
    (f : Cb) (hsel : select m pair = some f)
    (intent : IntentV (Val Cb)) (cbs : List (CbPair Cb))
    (happ : apply f p = .ret (.eff false intent cbs)) :
    resolve_effect apply effect r0 m0 =
      resolveList apply post (.eff false intent cbs) false := by
  rw [resolve_effect, hsplit]
  rw [resolveList_append apply pre (pair :: post) r0 m0 p m hpre]
  rw [resolveList, hsel]
  simp only [runCb, happ]

/-- Witness for C10: a subclass instance returned by the last continuation
is returned as a plain value, not wrapped as a pending effect. -/
theorem resolve_effect_subclass_passthrough_witness :
    resolve_effect applyL ⟨.other 0, [(some (CbL.retEff false 9 []), none)]⟩
      (Val.base 0) false = .value (.eff false (.other 9) []) :=
  resolve_effect_subclass_passthrough applyL
    ⟨.other 0, [(some (CbL.retEff false 9 []), none)]⟩
    (Val.base 0) false [] (some (CbL.retEff false 9 []), none) []
    rfl (Val.base 0) false rfl _ rfl (.other 9) [] rfl

/-- The payload produced by one continuation call: the returned value, or
the captured exc_info if it raised. -/
def applyVal {Cb : Type} (apply : Cb → Val Cb → CbRes Cb) (f : Cb)
    (r : Val Cb) : Val Cb :=
  (runCb apply f r).1

/-- Left-to-right fold of the success-continuations over an initial result,
an absent success-continuation acting as the identity. -/
def foldSucc {Cb : Type} (apply : Cb → Val Cb → CbRes Cb)
    (cbs : List (CbPair Cb)) (r : Val Cb) : Val Cb :=
  cbs.foldl
    (fun acc p =>
      match p.1 with
      | none => acc
      | some f => applyVal apply f acc)
    r

/-- The run of a chain from `r` raises no exception and returns no value of
exact runtime type `Effect` from any continuation. -/
def cleanRun {Cb : Type} (apply : Cb → Val Cb → CbRes Cb) :
    List (CbPair Cb) → Val Cb → Prop
  | [], _ => True
  | p :: rest, r =>
    match p.1 with
    | none => cleanRun apply rest r
    | some f =>
      (∃ v, apply f r = .ret v ∧ ∀ intent cbs, v ≠ Val.eff true intent cbs) ∧
        cleanRun apply rest (applyVal apply f r)

/-- C2: on a chain whose run from `r` raises nothing and returns no new
Deferred-Computation Value, `resolve_effect effect r false` returns the
left-to-right fold of the success-continuations over `r`, an absent
success-continuation acting as the identity. -/
theorem resolve_effect_is_fold {Cb : Type} (apply : Cb → Val Cb → CbRes Cb)
    (effect : EffectD Cb) (r : Val Cb)
    (h : cleanRun apply effect.callbacks r) :
    resolve_effect apply effect r false =
      .value (foldSucc apply effect.callbacks r) := by
  rw [resolve_effect]
  revert r
  induction effect.callbacks with
  | nil => intro r _; rfl
  | cons p rest ih =>
    intro r h
    rcases p with ⟨cb1, cb2⟩
    rw [resolveList]
    have hs : select false (cb1, cb2) = cb1 := rfl
    rw [hs]
    rcases cb1 with _ | f
    · simp only [cleanRun] at h
      simpa [foldSucc] using ih r h
    · simp only [cleanRun] at h
      obtain ⟨⟨v, happ, hne⟩, hrest⟩ := h
      have hav : applyVal apply f r = v := by rw [applyVal, runCb, happ]
      rw [hav] at hrest
      have hfold : foldSucc apply ((some f, cb2) :: rest) r
          = foldSucc apply rest v := by
        simp only [foldSucc, List.foldl_cons]
        rw [hav]
      rw [hfold]
      simp only [runCb, happ]
      rcases v with n | e | ⟨exact, intent, cbs⟩
      · exact ih _ hrest
      · exact ih _ hrest
      · cases exact
        · exact ih _ hrest
        · exact absurd rfl (hne intent cbs)

/-- Witness for C2 on the chain `succ; (absent); succ` from `5`. -/
theorem resolve_effect_is_fold_witness :
    resolve_effect applyL
      ⟨.other 0,
       [(some CbL.succN, none), (none, some CbL.idc), (some CbL.succN, none)]⟩
      (Val.base 5) false = .value (Val.base 7) :=
  resolve_effect_is_fold applyL
    ⟨.other 0,
     [(some CbL.succN, none), (none, some CbL.idc), (some CbL.succN, none)]⟩
    (Val.base 5)
    ⟨⟨Val.base 6, rfl, fun _ _ h => nomatch h⟩,
     ⟨Val.base 7, rfl, fun _ _ h => nomatch h⟩, trivial⟩

theorem resolveList_pending_shape {Cb : Type} (apply : Cb → Val Cb → CbRes Cb) :
    ∀ (cbs : List (CbPair Cb)) (r : Val Cb) (m : Bool) (v : Val Cb),
      resolveList apply cbs r m = .pending v →
      ∃ intent newCbs n, 1 ≤ n ∧ n ≤ cbs.length ∧
        v = Val.eff true intent (newCbs ++ cbs.drop n) := by
  intro cbs
  induction cbs with
  | nil =>
    intro r m v h
    rw [resolveList] at h
    rcases m with _ | _
    · simp at h
    · simp only [if_true] at h
      rcases r with n | e | t <;> simp [reraiseVal] at h
  | cons p rest ih =>
    intro r m v h
    rw [resolveList] at h
    rcases hsel : select m p with _ | f <;> rw [hsel] at h
    · obtain ⟨intent, newCbs, n, h1, h2, h3⟩ := ih r m v h
      exact ⟨intent, newCbs, n + 1, by omega, by simpa using h2, by simpa using h3⟩
    · simp only at h
      rcases hrc : runCb apply f r with ⟨w, b⟩
      rw [hrc] at h
      rcases w with n | e | ⟨exact, intent, cbs'⟩
      · obtain ⟨intent, newCbs, n', h1, h2, h3⟩ := ih _ _ v h
        exact ⟨intent, newCbs, n' + 1, by omega, by simpa using h2, by simpa using h3⟩
      · obtain ⟨intent, newCbs, n', h1, h2, h3⟩ := ih _ _ v h
        exact ⟨intent, newCbs, n' + 1, by omega, by simpa using h2, by simpa using h3⟩
      · cases exact
        · obtain ⟨intent', newCbs, n', h1, h2, h3⟩ := ih _ _ v h
          exact ⟨intent', newCbs, n' + 1, by omega, by simpa using h2, by simpa using h3⟩
        · refine ⟨intent, cbs', 1, le_refl 1, by simp, ?_⟩
          simp only [Outcome.pending.injEq] at h
          simpa using h.symm

/-- C8: the embedding is pure, so `resolve_effect` cannot mutate its input,
and this theorem states the constructive half of the claim: whenever
`resolve_effect` produces a pending deferred-computation value, that value
is a newly built exact `Effect` whose callback sequence is some list of new
callbacks followed by a re-sliced suffix `effect.callbacks.drop n`
(`1 ≤ n ≤ length`) of the original, untouched callback sequence. -/
theorem resolve_effect_pending_reslices {Cb : Type}
    (apply : Cb → Val Cb → CbRes Cb) (effect : EffectD Cb)
    (r : Val Cb) (m : Bool) (v : Val Cb)
    (h : resolve_effect apply effect r m = .pending v) :
    ∃ intent newCbs n, 1 ≤ n ∧ n ≤ effect.callbacks.length ∧
      v = Val.eff true intent (newCbs ++ effect.callbacks.drop n) :=
  resolveList_pending_shape apply effect.callbacks r m v h

/-- Witness for C8 at a concrete pending run. -/
theorem resolve_effect_pending_reslices_witness :
    ∃ intent newCbs n, 1 ≤ n ∧
      n ≤ ([(some (CbL.retEff true 3 [(some CbL.idc, none)]), none),
            (some CbL.succN, none)] : List (CbPair CbL)).length ∧
      Val.eff true (.other 3) [(some CbL.idc, none), (some CbL.succN, none)] =
        Val.eff true intent
          (newCbs ++ ([(some (CbL.retEff true 3 [(some CbL.idc, none)]), none),
                       (some CbL.succN, none)] : List (CbPair CbL)).drop n) :=
  resolve_effect_pending_reslices applyL
    ⟨.other 0, [(some (CbL.retEff true 3 [(some CbL.idc, none)]), none),
                (some CbL.succN, none)]⟩
    (Val.base 0) false
    (Val.eff true (.other 3) [(some CbL.idc, none), (some CbL.succN, none)])
    rfl

/-- C6: on a stub-intent effect, `resolve_stub` feeds the stub's stored
result to `resolve_effect` as a success; on any other intent of this core
the attribute access `intent.result` fails with a programmer error
(`AttributeError`) instead of returning a value. -/
theorem resolve_stub_spec {Cb : Type} (apply : Cb → Val Cb → CbRes Cb)
    (effect : EffectD Cb) :
    (∀ r, effect.intent = .stub r →
      resolve_stub apply effect = .ok (resolve_effect apply effect r false)) ∧
    (∀ n, effect.intent = .other n →
      resolve_stub apply effect = .error "AttributeError") := by
  constructor
  · intro r h
    rw [resolve_stub, h]
    rfl
  · intro n h
    rw [resolve_stub, h]
    rfl

/-- Witness for C6: `resolve_stub(Effect(StubIntent(42)))` with no callbacks
returns `42`, and `resolve_stub` on a non-stub intent fails. -/
theorem resolve_stub_spec_witness :
    resolve_stub applyL ⟨.stub (Val.base 42), []⟩ = .ok (.value (Val.base 42)) ∧
    resolve_stub applyL ⟨.other 1, []⟩ = .error "AttributeError" :=
  ⟨(resolve_stub_spec applyL ⟨.stub (Val.base 42), []⟩).1 (Val.base 42) rfl,
   (resolve_stub_spec applyL ⟨.other 1, []⟩).2 1 rfl⟩

/-- Counterexample to C7 as stated: when the performer defers (delivers
nothing to the terminal continuations), *neither* collection is non-empty
after `perform` returns, so "exactly one of the two collections is
non-empty" is false, and `sync_perform` raises the AssertionError. -/
theorem sync_perform_exactly_one_false :
    ¬ (((collectors (Delivery.deferred : Delivery CbL)).1 ≠ [] ∧
        (collectors (Delivery.deferred : Delivery CbL)).2 = []) ∨
       ((collectors (Delivery.deferred : Delivery CbL)).1 = [] ∧
        (collectors (Delivery.deferred : Delivery CbL)).2 ≠ [])) ∧
    sync_perform (Delivery.deferred : Delivery CbL) = .assertionError := by
  constructor
  · rintro (⟨h, _⟩ | ⟨_, h⟩) <;> exact h rfl
  · rfl

/-- C7 (amended): after `perform` returns, at most one of the two collector
collections is non-empty; `sync_perform` returns the single element of the
success collection when it is non-empty, re-raises the captured error when
the success collection is empty and the error collection is non-empty, and
when both are empty raises the distinct not-synchronous `AssertionError`
rather than returning a silent default. -/
theorem sync_perform_unwrap_spec {Cb : Type} (d : Delivery Cb) :
    ¬ ((collectors d).1 ≠ [] ∧ (collectors d).2 ≠ []) ∧
    (∀ v, (collectors d).1 = [v] → sync_perform d = .value v) ∧
    (∀ e, (collectors d).1 = [] → (collectors d).2 = [Val.excInfo e] →
      sync_perform d = .raised e) ∧
    ((collectors d).1 = [] → (collectors d).2 = [] →
      sync_perform d = .assertionError) := by
  rcases d with v | e | _
  · refine ⟨fun h => h.2 rfl, fun w hw => ?_, fun e h1 _ => by simp [collectors] at h1,
      fun h1 _ => by simp [collectors] at h1⟩
    simp only [collectors, List.cons.injEq, and_true] at hw
    rw [sync_perform]
    simp [collectors, sync_unwrap, hw]
  · refine ⟨fun h => h.1 rfl, fun w hw => by simp [collectors] at hw,
      fun e' _ h2 => ?_, fun _ h2 => by simp [collectors] at h2⟩
    simp only [collectors, List.cons.injEq, and_true, Val.excInfo.injEq] at h2
    rw [sync_perform]
    simp [collectors, sync_unwrap, reraiseSync, h2]
  · exact ⟨fun h => h.1 rfl, fun w hw => by simp [collectors] at hw,
      fun e h1 h2 => by simp [collectors] at h2, fun _ _ => rfl⟩

/-- Witness for C7 at the three concrete deliveries. -/
theorem sync_perform_unwrap_spec_witness :
    sync_perform (Delivery.success (Val.base 5) : Delivery CbL) = .value (Val.base 5) ∧
    sync_perform (Delivery.failure ⟨"E", "m"⟩ : Delivery CbL) = .raised ⟨"E", "m"⟩ ∧
    sync_perform (Delivery.deferred : Delivery CbL) = .assertionError :=
  ⟨(sync_perform_unwrap_spec (Delivery.success (Val.base 5))).2.1 (Val.base 5) rfl,
   (sync_perform_unwrap_spec (Delivery.failure ⟨"E", "m"⟩)).2.2.1 ⟨"E", "m"⟩ rfl rfl,
   (sync_perform_unwrap_spec (Delivery.deferred : Delivery CbL)).2.2.2 rfl rfl⟩

/-- C9: the unwrap code of `sync_perform` (`if successes: return
successes[0] elif errors: ...`) never checks exclusivity: when both
collections are non-empty it returns the first collected success and the
collected error is ignored. -/
theorem sync_unwrap_prefers_success {Cb : Type} (s : Val Cb)
    (ss : List (Val Cb)) (e : Val Cb) (es : List (Val Cb)) :
    sync_unwrap (s :: ss) (e :: es) = .value s :=
  rfl
